import Mathlib

/-!
Shallow embedding of the wake repository (a Wake-on-LAN tool) for checking its
natural-language specification.

The authoritative core is src/wake/wake.py (class Host and class Hosts); the
dispatch loop lives in src/wake/core.py (command host) and the configuration
loader build_hosts exists only through its tests (src/tests/test_cli.py) and is
modelled from the spec where needed.

Strings are modelled as Lean String (lists of characters); Python str.upper and
str.lower are modelled character-wise with the ASCII case maps Char.toUpper and
Char.toLower, which agree with Python on the ASCII inputs these claims range
over. Python bytes are modelled as List Nat with every entry below 256.
-/

set_option maxRecDepth 100000

namespace Wake

/-- Models str.upper applied character-wise (ASCII case map). -/
def pyUpper (s : String) : String := ⟨s.data.map Char.toUpper⟩

/-- Models str.lower applied character-wise (ASCII case map). -/
def pyLower (s : String) : String := ⟨s.data.map Char.toLower⟩

/-- Models the Python expression mac.replace(char, "") for a single character:
every occurrence of that character is removed. -/
def removeChar (c : Char) (l : List Char) : List Char := l.filter (fun x => x != c)

/-- Models the MAC_REPLACE loop of Host.__init__ in src/wake/wake.py: the
separators are removed in order, first every dot, then every dash, then every
colon.  The membership guard in the loop does not change the result. -/
def stripSeps (l : List Char) : List Char :=
  removeChar ':' (removeChar '-' (removeChar '.' l))

/-- Models MAC_SEPARATOR.join(mac[i : i + 2] for i in range(0, 12, 2)) from
Host.__init__: a colon after every pair of characters.  The constructor only
evaluates it on inputs of length 12; the fallback case returns the list
unchanged and is never reached under the guard. -/
def joinPairsColon : List Char → List Char
  | a :: b :: c :: rest => a :: b :: ':' :: joinPairsColon (c :: rest)
  | l => l

/-- Models class Host of src/wake/wake.py: the private fields set by
Host.__init__, with the stored MAC in the field mkMac (corresponding to
self._mac after normalization). -/
structure Host where
  mkName : String
  mkIp : String
  mkPort : Int
  mkMac : String
deriving DecidableEq, Repr

/-- Models Host.__init__(name, mac, ip, port): separators are stripped from the
raw MAC; when exactly 12 characters remain a colon is re-inserted after every
pair; the result is stored un-uppercased in self._mac. -/
def Host.make (name mac ip : String) (port : Int) : Host :=
  let m := stripSeps mac.data
  { mkName := name
    mkIp := ip
    mkPort := port
    mkMac := ⟨if m.length = 12 then joinPairsColon m else m⟩ }

/-- Models the Host.name property. -/
def Host.name (h : Host) : String := h.mkName

/-- Models the Host.ip property. -/
def Host.ip (h : Host) : String := h.mkIp

/-- Models the Host.port property. -/
def Host.port (h : Host) : Int := h.mkPort

/-- Models the Host.mac property: the stored MAC upper-cased for display. -/
def Host.mac (h : Host) : String := pyUpper h.mkMac

/-- Value of one hexadecimal digit, as int(d, 16) computes it for the digit
characters (other characters are never reached under the validity guard of the
claims; the fallback 0 stands for the unreached branch of int raising). -/
def hexVal (c : Char) : Nat :=
  if 48 ≤ c.toNat ∧ c.toNat ≤ 57 then c.toNat - 48
  else if 65 ≤ c.toNat ∧ c.toNat ≤ 70 then c.toNat - 55
  else if 97 ≤ c.toNat ∧ c.toNat ≤ 102 then c.toNat - 87
  else 0

/-- Models the loop of Host.magic_packet that packs consecutive pairs of hex
characters of the data string into one byte each, via int(data[i : i + 2], 16).
A trailing single character (odd length) is packed from one digit, exactly as
the Python slice would produce. -/
def packPairs : List Char → List Nat
  | a :: b :: rest => (16 * hexVal a + hexVal b) :: packPairs rest
  | [a] => [hexVal a]
  | [] => []

/-- Models the Host.magic_packet property of src/wake/wake.py: the colons are
removed from the displayed MAC, the data string is "FF" * 6 followed by the
bare MAC string repeated 20 times, and consecutive pairs of characters are
packed into bytes. -/
def Host.magic_packet (h : Host) : List Nat :=
  let mac := removeChar ':' h.mac.data
  let data := (List.replicate 6 ['F', 'F']).flatten ++ (List.replicate 20 mac).flatten
  packPairs data

/-- C1: claimed packet layout, 6 bytes of 0xFF followed by the 6-byte MAC
repeated 16 times (102 bytes). -/
def claimedMagicPacket (macBytes : List Nat) : List Nat :=
  List.replicate 6 255 ++ (List.replicate 16 macBytes).flatten

/-- C1. The claim says magic_packet for a valid MAC returns exactly 102 bytes:
6 bytes of 0xFF followed by the 6-byte MAC repeated 16 times; for MAC
AA:BB:CC:00:11:22 byte-for-byte 0xFF * 6 then 16 repetitions of
AA BB CC 00 11 22.  The code (data = "FF" * 6 + mac * 20 in Host.magic_packet,
src/wake/wake.py line 65, likewise Host.create_magic_packet in
src/wake/core.py line 83) repeats the MAC 20 times, producing 126 bytes, while
the repository's own test test_host_magic_packet asserts the 102-byte,
16-repetition packet: the code contradicts its test, a code bug.  This theorem
evaluates the embedded code at the claim's input: the result is the 20-fold
repetition, has 126 bytes, and differs from the claimed 102-byte packet. -/
theorem magic_packet_repeats_twenty :
    (Host.make "foo" "AA:BB:CC:00:11:22" "255.255.255.255" 9).magic_packet =
      List.replicate 6 255 ++
        (List.replicate 20 [0xAA, 0xBB, 0xCC, 0x00, 0x11, 0x22]).flatten ∧
    (Host.make "foo" "AA:BB:CC:00:11:22" "255.255.255.255" 9).magic_packet.length = 126 ∧
    (Host.make "foo" "AA:BB:CC:00:11:22" "255.255.255.255" 9).magic_packet ≠
      claimedMagicPacket [0xAA, 0xBB, 0xCC, 0x00, 0x11, 0x22] := by
  refine ⟨by decide, by decide, by decide⟩

/-- Character code of Char.ofNat at a valid code point. -/
theorem toNat_ofNat_valid (n : Nat) (h : n.isValidChar) : (Char.ofNat n).toNat = n := by
  simp only [Char.ofNat]
  rw [dif_pos h]
  rfl

/-- ASCII upper-casing is idempotent character-wise. -/
theorem toUpper_toUpper (c : Char) : c.toUpper.toUpper = c.toUpper := by
  unfold Char.toUpper
  by_cases h : c.toNat ≥ 97 ∧ c.toNat ≤ 122
  · rw [if_pos h]
    have hv : (c.toNat - 32).isValidChar := by left; omega
    have h2 : (Char.ofNat (c.toNat - 32)).toNat = c.toNat - 32 := toNat_ofNat_valid _ hv
    rw [if_neg (by omega)]
  · rw [if_neg h, if_neg h]

/-- Upper-casing a character neither creates nor destroys an occurrence of a
character whose code is below 65 (in particular of the separators dot, dash and
colon). -/
theorem toUpper_eq_iff_of_lt (c d : Char) (hd : d.toNat < 65) :
    c.toUpper = d ↔ c = d := by
  constructor
  · intro h
    unfold Char.toUpper at h
    by_cases hc : c.toNat ≥ 97 ∧ c.toNat ≤ 122
    · rw [if_pos hc] at h
      have hv : (c.toNat - 32).isValidChar := by left; omega
      have h2 : (Char.ofNat (c.toNat - 32)).toNat = c.toNat - 32 := toNat_ofNat_valid _ hv
      rw [h] at h2
      omega
    · rwa [if_neg hc] at h
  · intro h
    subst h
    unfold Char.toUpper
    rw [if_neg (by omega)]

/-- Bool form of toUpper_eq_iff_of_lt for rewriting under filters. -/
theorem bne_toUpper_of_lt (c d : Char) (hd : d.toNat < 65) :
    (c.toUpper != d) = (c != d) := by
  by_cases h : c = d
  · subst h
    have : c.toUpper = c := (toUpper_eq_iff_of_lt c c hd).mpr rfl
    rw [this]
  · have h2 : ¬ c.toUpper = d := fun he => h ((toUpper_eq_iff_of_lt c d hd).mp he)
    have e1 : (c.toUpper == d) = false := beq_eq_false_iff_ne.mpr h2
    have e2 : (c == d) = false := beq_eq_false_iff_ne.mpr h
    simp [bne, e1, e2]

/-- Hexadecimal digit test of the character class of MAC_PATTERN under
re.IGNORECASE: the digits, the uppercase letters A-F and the lowercase a-f. -/
def isHexDigit (c : Char) : Bool :=
  (48 ≤ c.toNat && c.toNat ≤ 57) || (65 ≤ c.toNat && c.toNat ≤ 70) ||
    (97 ≤ c.toNat && c.toNat ≤ 102)

/-- Consume two hexadecimal digits from the front, as a regex fragment. -/
def matchHexPair : List Char → Option (List Char)
  | a :: b :: rest => if isHexDigit a && isHexDigit b then some rest else none
  | _ => none

/-- Consume one colon from the front, as a regex fragment; the separator group
of MAC_PATTERN can only capture a colon, so its backreference is a colon. -/
def matchColon : List Char → Option (List Char)
  | c :: rest => if c = ':' then some rest else none
  | _ => none

/-- Consume n repetitions of pair-plus-colon and one final pair: the body of
MAC_PATTERN with n = 5 is HH:HH:HH:HH:HH:HH (17 characters). -/
def matchMacCore : Nat → List Char → Option (List Char)
  | 0, s => matchHexPair s
  | n + 1, s => (((matchHexPair s).bind matchColon).bind (matchMacCore n))

/-- Models MAC_PATTERN.match of Host._validate_mac in src/wake/wake.py:
re.match anchors only at the start of the string, so a match of the 17
characters HH:HH:HH:HH:HH:HH at the front succeeds regardless of what
follows. -/
def macPatternMatchB (s : String) : Bool := (matchMacCore 5 s.data).isSome

/-- Stated from the spec for comparison in C5: the anchored pattern of exactly
six colon-separated hex pairs and nothing after them. -/
def specMacAnchoredB (s : String) : Bool :=
  match matchMacCore 5 s.data with
  | some rest => rest.isEmpty
  | none => false

/-- ASCII decimal digit test of CPython's IPv4 octet parser. -/
def isDecDigit (c : Char) : Bool := 48 ≤ c.toNat && c.toNat ≤ 57

/-- Numeric value of a string of decimal digits. -/
def decVal (l : List Char) : Nat := l.foldl (fun n c => 10 * n + (c.toNat - 48)) 0

/-- Split a character list at every dot, keeping empty parts, as str.split
does. -/
def splitDot : List Char → List (List Char)
  | [] => [[]]
  | c :: rest =>
    match splitDot rest with
    | [] => [[c]]
    | g :: gs => if c = '.' then [] :: g :: gs else (c :: g) :: gs

/-- Models CPython's IPv4 octet rule used by ipaddress.IPv4Address: one to
three ASCII decimal digits, no leading zero unless the octet is exactly 0, and
a value of at most 255. -/
def octetOk (p : List Char) : Bool :=
  !p.isEmpty && p.length ≤ 3 && p.all isDecDigit &&
    (p.length = 1 || !(p.headI = '0')) && decVal p ≤ 255

/-- Models the syntax check of ipaddress.IPv4Address(str) as used by
Host._validate_ip: exactly four dot-separated octets, each satisfying
octetOk; every parse failure raises AddressValueError, which the validator
catches. -/
def ipv4Valid (s : String) : Bool :=
  let parts := splitDot s.data
  parts.length = 4 && parts.all octetOk

/-- Models Host._validate_ip: the message it raises when IPv4Address fails. -/
def Host.ipError (h : Host) : Option String :=
  if ipv4Valid h.ip then none else some "Invalid IPv4 Address"

/-- Models Host._validate_mac: MAC_PATTERN.match runs on the stored self._mac
(before upper-casing for display). -/
def Host.macError (h : Host) : Option String :=
  if macPatternMatchB h.mkMac then none else some "Invalid MAC Address"

/-- Models Host._validate_name. -/
def Host.nameError (h : Host) : Option String :=
  if h.name = "" then some "Invalid name" else none

/-- Models Host._validate_port: 0 <= port <= 65535. -/
def Host.portError (h : Host) : Option String :=
  if 0 ≤ h.port ∧ h.port ≤ 65535 then none else some "Invalid port"

/-- Models Host.validate of src/wake/wake.py: every method whose name begins
with the validation prefix runs (dir() enumerates them alphabetically: ip,
mac, name, port), each failure message is collected, and the collected list is
raised as one ValueError when non-empty. -/
def Host.validateErrors (h : Host) : List String :=
  h.ipError.toList ++ h.macError.toList ++ h.nameError.toList ++ h.portError.toList

/-- Models the raise at the end of Host.validate: an error carrying the whole
message list when any validator failed, a normal return otherwise. -/
def Host.validate (h : Host) : Except (List String) Unit :=
  if h.validateErrors = [] then Except.ok () else Except.error h.validateErrors

/-- C2. validate runs all four field checks (IPv4 syntax of ip, MAC pattern of
the stored mac, non-emptiness of name, port within 0..65535) without stopping
at the first failure: it returns normally exactly when every check passes, and
otherwise raises one error whose message list contains a given rule's message
exactly when that rule is violated — so every violated rule's message is
present even when an earlier check already failed. -/
theorem host_validate_collects_all (h : Host) :
    (h.validate = Except.ok () ↔
      (ipv4Valid h.ip = true ∧ macPatternMatchB h.mkMac = true ∧ h.name ≠ "" ∧
        (0 ≤ h.port ∧ h.port ≤ 65535))) ∧
    (∀ es, h.validate = Except.error es →
      es ≠ [] ∧
      ("Invalid IPv4 Address" ∈ es ↔ ipv4Valid h.ip = false) ∧
      ("Invalid MAC Address" ∈ es ↔ macPatternMatchB h.mkMac = false) ∧
      ("Invalid name" ∈ es ↔ h.name = "") ∧
      ("Invalid port" ∈ es ↔ ¬ (0 ≤ h.port ∧ h.port ≤ 65535))) := by
  by_cases hip : ipv4Valid h.ip <;>
    by_cases hmac : macPatternMatchB h.mkMac <;>
      by_cases hname : h.name = "" <;>
        by_cases hport : 0 ≤ h.port ∧ h.port ≤ 65535 <;>
          simp [Host.validate, Host.validateErrors, Host.ipError, Host.macError,
            Host.nameError, Host.portError, hip, hmac, hname, hport]

/-- C2 witness: the spec's two concrete vectors.  The valid host (ip 127.0.0.1,
MAC AA:BB:CC:00:11:22, name foo, port 9) validates without error; the invalid
host (ip 127.0.0.x, MAC ZZ:BB:CC:00:11:22, empty name, port -1) produces an
error list containing all four failure messages. -/
theorem host_validate_collects_all_witness :
    (Host.make "foo" "AA:BB:CC:00:11:22" "127.0.0.1" 9).validate = Except.ok () ∧
    ("Invalid IPv4 Address" ∈
        (Host.make "" "ZZ:BB:CC:00:11:22" "127.0.0.x" (-1)).validateErrors ∧
      "Invalid MAC Address" ∈
        (Host.make "" "ZZ:BB:CC:00:11:22" "127.0.0.x" (-1)).validateErrors ∧
      "Invalid name" ∈
        (Host.make "" "ZZ:BB:CC:00:11:22" "127.0.0.x" (-1)).validateErrors ∧
      "Invalid port" ∈
        (Host.make "" "ZZ:BB:CC:00:11:22" "127.0.0.x" (-1)).validateErrors) := by
  have hbad := (host_validate_collects_all
      (Host.make "" "ZZ:BB:CC:00:11:22" "127.0.0.x" (-1))).2
    (Host.make "" "ZZ:BB:CC:00:11:22" "127.0.0.x" (-1)).validateErrors rfl
  refine ⟨(host_validate_collects_all
      (Host.make "foo" "AA:BB:CC:00:11:22" "127.0.0.1" 9)).1.mpr (by decide),
    hbad.2.1.mpr (by decide), hbad.2.2.1.mpr (by decide),
    hbad.2.2.2.1.mpr (by decide), hbad.2.2.2.2.mpr (by decide)⟩

/-- Hexadecimal digits are not the dot separator. -/
theorem bne_dot_of_hex (c : Char) (h : isHexDigit c = true) : (c != '.') = true := by
  rcases eq_or_ne c '.' with rfl | hne
  · exact absurd h (by decide)
  · simp [bne, beq_eq_false_iff_ne.mpr hne]

/-- Hexadecimal digits are not the dash separator. -/
theorem bne_dash_of_hex (c : Char) (h : isHexDigit c = true) : (c != '-') = true := by
  rcases eq_or_ne c '-' with rfl | hne
  · exact absurd h (by decide)
  · simp [bne, beq_eq_false_iff_ne.mpr hne]

/-- Hexadecimal digits are not the colon separator. -/
theorem bne_colon_of_hex (c : Char) (h : isHexDigit c = true) : (c != ':') = true := by
  rcases eq_or_ne c ':' with rfl | hne
  · exact absurd h (by decide)
  · simp [bne, beq_eq_false_iff_ne.mpr hne]

/-- Stripping the separators keeps a leading hexadecimal digit. -/
theorem stripSeps_cons_hex (c : Char) (l : List Char) (h : isHexDigit c = true) :
    stripSeps (c :: l) = c :: stripSeps l := by
  simp [stripSeps, removeChar, List.filter_cons, bne_dot_of_hex c h,
    bne_dash_of_hex c h, bne_colon_of_hex c h]

/-- Stripping the separators removes a leading dot. -/
theorem stripSeps_cons_dot (l : List Char) : stripSeps ('.' :: l) = stripSeps l := by
  simp [stripSeps, removeChar, List.filter_cons]

/-- Stripping the separators removes a leading dash. -/
theorem stripSeps_cons_dash (l : List Char) : stripSeps ('-' :: l) = stripSeps l := by
  simp [stripSeps, removeChar, List.filter_cons]

/-- Stripping the separators removes a leading colon. -/
theorem stripSeps_cons_colon (l : List Char) : stripSeps (':' :: l) = stripSeps l := by
  simp [stripSeps, removeChar, List.filter_cons]

/-- Stripping the separators of the empty string gives the empty string. -/
theorem stripSeps_nil : stripSeps [] = [] := rfl

/-- Upper-casing fixes the colon. -/
theorem toUpper_colon : Char.toUpper ':' = ':' := by decide

/-- Twelve digits written as six colon-separated pairs. -/
def styleColonPairs (c0 c1 c2 c3 c4 c5 c6 c7 c8 c9 c10 c11 : Char) : String :=
  ⟨[c0, c1, ':', c2, c3, ':', c4, c5, ':', c6, c7, ':', c8, c9, ':', c10, c11]⟩

/-- Twelve digits written as six dash-separated pairs. -/
def styleDashPairs (c0 c1 c2 c3 c4 c5 c6 c7 c8 c9 c10 c11 : Char) : String :=
  ⟨[c0, c1, '-', c2, c3, '-', c4, c5, '-', c6, c7, '-', c8, c9, '-', c10, c11]⟩

/-- Twelve digits written as six dot-separated pairs. -/
def styleDotPairs (c0 c1 c2 c3 c4 c5 c6 c7 c8 c9 c10 c11 : Char) : String :=
  ⟨[c0, c1, '.', c2, c3, '.', c4, c5, '.', c6, c7, '.', c8, c9, '.', c10, c11]⟩

/-- Twelve digits written as three dot-separated four-character groups. -/
def styleDotQuads (c0 c1 c2 c3 c4 c5 c6 c7 c8 c9 c10 c11 : Char) : String :=
  ⟨[c0, c1, c2, c3, '.', c4, c5, c6, c7, '.', c8, c9, c10, c11]⟩

/-- Twelve digits written without any separator. -/
def styleBare (c0 c1 c2 c3 c4 c5 c6 c7 c8 c9 c10 c11 : Char) : String :=
  ⟨[c0, c1, c2, c3, c4, c5, c6, c7, c8, c9, c10, c11]⟩

/-- Canonical display form: the twelve digits upper-cased, grouped in six
two-digit pairs joined by colons. -/
def canonicalMac (c0 c1 c2 c3 c4 c5 c6 c7 c8 c9 c10 c11 : Char) : String :=
  ⟨[c0.toUpper, c1.toUpper, ':', c2.toUpper, c3.toUpper, ':', c4.toUpper, c5.toUpper,
    ':', c6.toUpper, c7.toUpper, ':', c8.toUpper, c9.toUpper, ':', c10.toUpper,
    c11.toUpper]⟩

/-- C3. Every supported separator style writing the same twelve hexadecimal
digits — colon pairs, dash pairs, dot pairs, dot four-character groups, no
separator — normalizes to one identical stored MAC: the digits upper-cased and
grouped in six pairs joined by colons. -/
theorem mac_normalization_separator_styles
    (c0 c1 c2 c3 c4 c5 c6 c7 c8 c9 c10 c11 : Char)
    (h0 : isHexDigit c0 = true) (h1 : isHexDigit c1 = true)
    (h2 : isHexDigit c2 = true) (h3 : isHexDigit c3 = true)
    (h4 : isHexDigit c4 = true) (h5 : isHexDigit c5 = true)
    (h6 : isHexDigit c6 = true) (h7 : isHexDigit c7 = true)
    (h8 : isHexDigit c8 = true) (h9 : isHexDigit c9 = true)
    (h10 : isHexDigit c10 = true) (h11 : isHexDigit c11 = true) :
    (Host.make "" (styleColonPairs c0 c1 c2 c3 c4 c5 c6 c7 c8 c9 c10 c11)
        "255.255.255.255" 9).mac = canonicalMac c0 c1 c2 c3 c4 c5 c6 c7 c8 c9 c10 c11 ∧
    (Host.make "" (styleDashPairs c0 c1 c2 c3 c4 c5 c6 c7 c8 c9 c10 c11)
        "255.255.255.255" 9).mac = canonicalMac c0 c1 c2 c3 c4 c5 c6 c7 c8 c9 c10 c11 ∧
    (Host.make "" (styleDotPairs c0 c1 c2 c3 c4 c5 c6 c7 c8 c9 c10 c11)
        "255.255.255.255" 9).mac = canonicalMac c0 c1 c2 c3 c4 c5 c6 c7 c8 c9 c10 c11 ∧
    (Host.make "" (styleDotQuads c0 c1 c2 c3 c4 c5 c6 c7 c8 c9 c10 c11)
        "255.255.255.255" 9).mac = canonicalMac c0 c1 c2 c3 c4 c5 c6 c7 c8 c9 c10 c11 ∧
    (Host.make "" (styleBare c0 c1 c2 c3 c4 c5 c6 c7 c8 c9 c10 c11)
        "255.255.255.255" 9).mac = canonicalMac c0 c1 c2 c3 c4 c5 c6 c7 c8 c9 c10 c11 := by
  refine ⟨?_, ?_, ?_, ?_, ?_⟩ <;>
    simp [Host.make, Host.mac, pyUpper, canonicalMac, styleColonPairs, styleDashPairs,
      styleDotPairs, styleDotQuads, styleBare, joinPairsColon, toUpper_colon,
      stripSeps_cons_hex, stripSeps_cons_dot, stripSeps_cons_dash, stripSeps_cons_colon,
      stripSeps_nil, h0, h1, h2, h3, h4, h5, h6, h7, h8, h9, h10, h11]

/-- C3 witness at the single concrete MAC of the spec: the five styles of
aabbcc001122 all normalize to AA:BB:CC:00:11:22. -/
theorem mac_normalization_separator_styles_witness :
    (Host.make "" "aa:bb:cc:00:11:22" "255.255.255.255" 9).mac = "AA:BB:CC:00:11:22" ∧
    (Host.make "" "aa-bb-cc-00-11-22" "255.255.255.255" 9).mac = "AA:BB:CC:00:11:22" ∧
    (Host.make "" "aa.bb.cc.00.11.22" "255.255.255.255" 9).mac = "AA:BB:CC:00:11:22" ∧
    (Host.make "" "aabb.cc00.1122" "255.255.255.255" 9).mac = "AA:BB:CC:00:11:22" ∧
    (Host.make "" "aabbcc001122" "255.255.255.255" 9).mac = "AA:BB:CC:00:11:22" := by
  have h := mac_normalization_separator_styles 'a' 'a' 'b' 'b' 'c' 'c' '0' '0' '1' '1' '2' '2'
    (by decide) (by decide) (by decide) (by decide) (by decide) (by decide) (by decide)
    (by decide) (by decide) (by decide) (by decide) (by decide)
  obtain ⟨e1, e2, e3, e4, e5⟩ := h
  refine ⟨?_, ?_, ?_, ?_, ?_⟩
  · exact (by decide : styleColonPairs 'a' 'a' 'b' 'b' 'c' 'c' '0' '0' '1' '1' '2' '2' =
      "aa:bb:cc:00:11:22") ▸ (by decide : canonicalMac 'a' 'a' 'b' 'b' 'c' 'c' '0' '0'
        '1' '1' '2' '2' = "AA:BB:CC:00:11:22") ▸ e1
  · exact (by decide : styleDashPairs 'a' 'a' 'b' 'b' 'c' 'c' '0' '0' '1' '1' '2' '2' =
      "aa-bb-cc-00-11-22") ▸ (by decide : canonicalMac 'a' 'a' 'b' 'b' 'c' 'c' '0' '0'
        '1' '1' '2' '2' = "AA:BB:CC:00:11:22") ▸ e2
  · exact (by decide : styleDotPairs 'a' 'a' 'b' 'b' 'c' 'c' '0' '0' '1' '1' '2' '2' =
      "aa.bb.cc.00.11.22") ▸ (by decide : canonicalMac 'a' 'a' 'b' 'b' 'c' 'c' '0' '0'
        '1' '1' '2' '2' = "AA:BB:CC:00:11:22") ▸ e3
  · exact (by decide : styleDotQuads 'a' 'a' 'b' 'b' 'c' 'c' '0' '0' '1' '1' '2' '2' =
      "aabb.cc00.1122") ▸ (by decide : canonicalMac 'a' 'a' 'b' 'b' 'c' 'c' '0' '0'
        '1' '1' '2' '2' = "AA:BB:CC:00:11:22") ▸ e4
  · exact (by decide : styleBare 'a' 'a' 'b' 'b' 'c' 'c' '0' '0' '1' '1' '2' '2' =
      "aabbcc001122") ▸ (by decide : canonicalMac 'a' 'a' 'b' 'b' 'c' 'c' '0' '0'
        '1' '1' '2' '2' = "AA:BB:CC:00:11:22") ▸ e5

/-- C4 counterexample. The claim says that a raw MAC whose stripped form is
not exactly 12 hex characters is passed through unchanged apart from
upper-casing, separators intact.  Both conjunct groups refute it at a concrete
input whose stripped form is not 12 hex characters.  For zz-zz-zz-zz-zz-zz the
stripped form has 12 characters but they are not hex digits, yet the
constructor still re-groups with colons: the stored MAC is ZZ:ZZ:ZZ:ZZ:ZZ:ZZ,
not the claimed ZZ-ZZ-ZZ-ZZ-ZZ-ZZ.  For aa:bb the stripped form has 4
characters, and the separators are not kept: the stored MAC is AABB, not the
claimed AA:BB. -/
theorem mac_passthrough_counterexample :
    ((stripSeps "zz-zz-zz-zz-zz-zz".data).length = 12 ∧
      (stripSeps "zz-zz-zz-zz-zz-zz".data).all isHexDigit = false ∧
      (Host.make "" "zz-zz-zz-zz-zz-zz" "255.255.255.255" 9).mac = "ZZ:ZZ:ZZ:ZZ:ZZ:ZZ" ∧
      (Host.make "" "zz-zz-zz-zz-zz-zz" "255.255.255.255" 9).mac ≠ "ZZ-ZZ-ZZ-ZZ-ZZ-ZZ") ∧
    ((stripSeps "aa:bb".data).length = 4 ∧
      (Host.make "" "aa:bb" "255.255.255.255" 9).mac = "AABB" ∧
      (Host.make "" "aa:bb" "255.255.255.255" 9).mac ≠ "AA:BB") := by
  refine ⟨⟨by decide, by decide, by decide, by decide⟩, by decide, by decide, by decide⟩

/-- C4 amended: a raw MAC input whose separator-stripped form is not exactly
12 characters long (hex or not) is stored as that stripped form — the
separators dot, dash and colon removed, all other characters kept in order —
and displayed upper-cased. -/
theorem mac_passthrough_amended (name mac ip : String) (port : Int)
    (h : (stripSeps mac.data).length ≠ 12) :
    (Host.make name mac ip port).mac = ⟨(stripSeps mac.data).map Char.toUpper⟩ := by
  simp [Host.make, Host.mac, pyUpper, h]

/-- C4 witness: the amended statement at the concrete raw MAC aa:bb, whose
stripped form aabb has 4 characters; the stored displayed MAC is AABB. -/
theorem mac_passthrough_amended_witness :
    (stripSeps "aa:bb".data).length ≠ 12 ∧
    (Host.make "" "aa:bb" "255.255.255.255" 9).mac = "AABB" := by
  refine ⟨by decide, ?_⟩
  rw [mac_passthrough_amended "" "aa:bb" "255.255.255.255" 9 (by decide)]
  decide

/-- A pair match consumes exactly two characters. -/
theorem matchHexPair_length (s r : List Char) (h : matchHexPair s = some r) :
    s.length = r.length + 2 := by
  match s with
  | [] => simp [matchHexPair] at h
  | [a] => simp [matchHexPair] at h
  | a :: b :: t =>
    simp only [matchHexPair] at h
    split at h
    · injection h with h
      subst h
      simp
    · exact absurd h (by simp)

/-- A colon match consumes exactly one character. -/
theorem matchColon_length (s r : List Char) (h : matchColon s = some r) :
    s.length = r.length + 1 := by
  match s with
  | [] => simp [matchColon] at h
  | c :: t =>
    simp only [matchColon] at h
    split at h
    · injection h with h
      subst h
      simp
    · exact absurd h (by simp)

/-- The body of MAC_PATTERN with n repetitions consumes exactly 3n + 2
characters, so with n = 5 exactly 17. -/
theorem matchMacCore_length (n : Nat) (s r : List Char) (h : matchMacCore n s = some r) :
    s.length = r.length + (3 * n + 2) := by
  induction n generalizing s r with
  | zero => simpa using matchHexPair_length s r h
  | succ n ih =>
    simp only [matchMacCore] at h
    rw [Option.bind_eq_some] at h
    obtain ⟨u, hu, hr⟩ := h
    rw [Option.bind_eq_some] at hu
    obtain ⟨t, ht, hc⟩ := hu
    have l1 := matchHexPair_length s t ht
    have l2 := matchColon_length t u hc
    have l3 := ih u r hr
    omega

/-- On a string of exactly 17 characters, the unanchored match of MAC_PATTERN
succeeds exactly when the anchored match does: there is no room for trailing
characters after six pairs. -/
theorem macPattern_prefix_eq_anchored_of_len (s : List Char) (h : s.length = 17) :
    (matchMacCore 5 s).isSome = (match matchMacCore 5 s with
      | some rest => rest.isEmpty
      | none => false) := by
  cases hm : matchMacCore 5 s with
  | none => simp
  | some r =>
    have := matchMacCore_length 5 s r hm
    have hr : r = [] := by
      rw [← List.length_eq_zero]
      omega
    subst hr
    simp

/-- No colon survives separator stripping. -/
theorem colon_not_mem_stripSeps (l : List Char) : ':' ∉ stripSeps l := by
  intro hm
  unfold stripSeps removeChar at hm
  rw [List.mem_filter] at hm
  simpa using hm.2

/-- Without any colon in the string, the colon-separated pattern cannot
match. -/
theorem matchMacCore_succ_none_of_no_colon (n : Nat) (s : List Char) (h : ':' ∉ s) :
    matchMacCore (n + 1) s = none := by
  match s with
  | [] => simp [matchMacCore, matchHexPair]
  | [a] => simp [matchMacCore, matchHexPair]
  | a :: b :: t =>
    simp only [matchMacCore]
    by_cases hg : (isHexDigit a && isHexDigit b) = true
    · cases t with
      | nil => simp [matchHexPair, hg, matchColon]
      | cons c t' =>
        have hc : ¬ c = ':' := by
          intro e
          subst e
          exact h (by simp)
        simp [matchHexPair, hg, matchColon, hc]
    · simp [matchHexPair, hg]

/-- Any list of length n + 1 splits off a head. -/
theorem exists_cons_of_length_succ {α : Type} (s : List α) (n : Nat)
    (h : s.length = n + 1) : ∃ a t, s = a :: t ∧ t.length = n := by
  cases s with
  | nil => simp at h
  | cons a t => exact ⟨a, t, rfl, by simpa using h⟩

/-- A character list of length 12 written out. -/
theorem shape_of_length_twelve (s : List Char) (h : s.length = 12) :
    ∃ c0 c1 c2 c3 c4 c5 c6 c7 c8 c9 c10 c11,
      s = [c0, c1, c2, c3, c4, c5, c6, c7, c8, c9, c10, c11] := by
  obtain ⟨c0, s, rfl, h1⟩ := exists_cons_of_length_succ s 11 h
  obtain ⟨c1, s, rfl, h2⟩ := exists_cons_of_length_succ s 10 h1
  obtain ⟨c2, s, rfl, h3⟩ := exists_cons_of_length_succ s 9 h2
  obtain ⟨c3, s, rfl, h4⟩ := exists_cons_of_length_succ s 8 h3
  obtain ⟨c4, s, rfl, h5⟩ := exists_cons_of_length_succ s 7 h4
  obtain ⟨c5, s, rfl, h6⟩ := exists_cons_of_length_succ s 6 h5
  obtain ⟨c6, s, rfl, h7⟩ := exists_cons_of_length_succ s 5 h6
  obtain ⟨c7, s, rfl, h8⟩ := exists_cons_of_length_succ s 4 h7
  obtain ⟨c8, s, rfl, h9⟩ := exists_cons_of_length_succ s 3 h8
  obtain ⟨c9, s, rfl, h10⟩ := exists_cons_of_length_succ s 2 h9
  obtain ⟨c10, s, rfl, h11⟩ := exists_cons_of_length_succ s 1 h10
  obtain ⟨c11, s, rfl, h12⟩ := exists_cons_of_length_succ s 0 h11
  rw [List.length_eq_zero] at h12
  subst h12
  exact ⟨c0, c1, c2, c3, c4, c5, c6, c7, c8, c9, c10, c11, rfl⟩

/-- C5. For every Host built by the constructor, the code's unanchored
MAC_PATTERN check on the stored MAC agrees exactly with the spec's anchored
pattern of six colon-separated hex pairs: a stored value either is the
re-grouped 17-character form, where a prefix match leaves no trailing
characters, or contains no colon at all, where neither pattern matches; and
the check failing is exactly when the message Invalid MAC Address is
collected. -/
theorem validate_mac_anchored_agrees (name mac ip : String) (port : Int) :
    macPatternMatchB (Host.make name mac ip port).mkMac =
      specMacAnchoredB (Host.make name mac ip port).mkMac ∧
    ("Invalid MAC Address" ∈ (Host.make name mac ip port).validateErrors ↔
      specMacAnchoredB (Host.make name mac ip port).mkMac = false) := by
  have key : macPatternMatchB (Host.make name mac ip port).mkMac =
      specMacAnchoredB (Host.make name mac ip port).mkMac := by
    show (matchMacCore 5 (Host.make name mac ip port).mkMac.data).isSome = _
    by_cases hl : (stripSeps mac.data).length = 12
    · obtain ⟨c0, c1, c2, c3, c4, c5, c6, c7, c8, c9, c10, c11, hs⟩ :=
        shape_of_length_twelve _ hl
      have hdata : (Host.make name mac ip port).mkMac.data =
          joinPairsColon (stripSeps mac.data) := by
        simp [Host.make, hl]
      have hlen : (joinPairsColon (stripSeps mac.data)).length = 17 := by
        rw [hs]
        simp [joinPairsColon]
      rw [hdata]
      exact (macPattern_prefix_eq_anchored_of_len _ hlen).trans (by
        simp [specMacAnchoredB, Host.make, hl])
    · have hdata : (Host.make name mac ip port).mkMac.data = stripSeps mac.data := by
        simp [Host.make, hl]
      have hnone : matchMacCore 5 (stripSeps mac.data) = none :=
        matchMacCore_succ_none_of_no_colon 4 _ (colon_not_mem_stripSeps mac.data)
      rw [hdata, hnone]
      simp [specMacAnchoredB, Host.make, hl, hnone]
  refine ⟨key, ?_⟩
  rw [← key]
  by_cases hip : ipv4Valid (Host.make name mac ip port).ip <;>
    by_cases hmac : macPatternMatchB (Host.make name mac ip port).mkMac <;>
      by_cases hname : (Host.make name mac ip port).name = "" <;>
        by_cases hport : 0 ≤ (Host.make name mac ip port).port ∧
            (Host.make name mac ip port).port ≤ 65535 <;>
          simp [Host.validateErrors, Host.ipError, Host.macError, Host.nameError,
            Host.portError, hip, hmac, hname, hport]

/-- Separator stripping is one filter keeping the non-separator characters. -/
theorem stripSeps_eq_filter (l : List Char) :
    stripSeps l = l.filter (fun a => ((a != ':') && (a != '-')) && (a != '.')) := by
  unfold stripSeps removeChar
  rw [List.filter_filter, List.filter_filter]

/-- A filter that drops colons ignores the colons that joinPairsColon
inserts. -/
theorem filter_joinPairsColon (p : Char → Bool) (hp : p ':' = false) :
    ∀ l, (joinPairsColon l).filter p = l.filter p
  | [] => rfl
  | [_] => rfl
  | [_, _] => rfl
  | a :: b :: c :: rest => by
    have ih := filter_joinPairsColon p hp (c :: rest)
    show (a :: b :: ':' :: joinPairsColon (c :: rest)).filter p = _
    simp [List.filter_cons, hp, ih]

/-- Stripping the separators after re-grouping gives the bare digits back. -/
theorem stripSeps_joinPairsColon (l : List Char) :
    stripSeps (joinPairsColon l) = stripSeps l := by
  rw [stripSeps_eq_filter, stripSeps_eq_filter, filter_joinPairsColon _ (by decide)]

/-- Separator stripping is idempotent. -/
theorem stripSeps_idem (l : List Char) : stripSeps (stripSeps l) = stripSeps l := by
  rw [stripSeps_eq_filter l, stripSeps_eq_filter, List.filter_filter]
  refine List.filter_congr ?_
  intro x _
  cases hx : (x != ':') && ((x != '-') && (x != '.')) <;> simp [hx]

/-- Character-wise upper-casing commutes with separator stripping: upper-casing
maps no character onto a separator and no separator onto anything else. -/
theorem stripSeps_map_toUpper (l : List Char) :
    stripSeps (l.map Char.toUpper) = (stripSeps l).map Char.toUpper := by
  rw [stripSeps_eq_filter, stripSeps_eq_filter, List.filter_map]
  congr 1
  refine List.filter_congr ?_
  intro x _
  simp [Function.comp, bne_toUpper_of_lt x ':' (by decide),
    bne_toUpper_of_lt x '-' (by decide), bne_toUpper_of_lt x '.' (by decide)]

/-- Character-wise upper-casing commutes with colon re-grouping. -/
theorem map_toUpper_joinPairsColon :
    ∀ l : List Char, (joinPairsColon l).map Char.toUpper = joinPairsColon (l.map Char.toUpper)
  | [] => rfl
  | [_] => rfl
  | [_, _] => rfl
  | a :: b :: c :: rest => by
    have ih := map_toUpper_joinPairsColon (c :: rest)
    show (a :: b :: ':' :: joinPairsColon (c :: rest)).map Char.toUpper = _
    simp only [List.map_cons, toUpper_colon, ih]
    rfl

/-- Function form of the idempotence of upper-casing. -/
theorem toUpper_comp_toUpper : Char.toUpper ∘ Char.toUpper = Char.toUpper :=
  funext toUpper_toUpper

/-- Character-wise upper-casing of a list is idempotent. -/
theorem map_toUpper_idem (l : List Char) :
    (l.map Char.toUpper).map Char.toUpper = l.map Char.toUpper := by
  rw [List.map_map]
  refine List.map_congr_left ?_
  intro x _
  exact toUpper_toUpper x

/-- Idempotence of normalization under the character-wise ASCII case map: a
helper for the ASCII-restricted idempotence statement below.  It covers both
inputs that were re-grouped to the canonical form and malformed inputs that
were merely stripped and upper-cased, but deliberately ignores the
length-changing Unicode case mappings of str.upper, which the restricted
statement excludes by hypothesis. -/
theorem mac_normalization_idempotent (s : String) :
    (Host.make "" (Host.make "" s "255.255.255.255" 9).mac "255.255.255.255" 9).mac =
      (Host.make "" s "255.255.255.255" 9).mac := by
  simp only [Host.make, Host.mac, pyUpper]
  by_cases h12 : (stripSeps s.data).length = 12 <;>
    simp [h12, stripSeps_map_toUpper, stripSeps_joinPairsColon, stripSeps_idem,
      map_toUpper_joinPairsColon, map_toUpper_idem, toUpper_comp_toUpper]

/-- Models the character expansion of Python str.upper on the fragment it is
applied to in this development: ASCII characters map one-to-one through
Char.toUpper, and U+00DF (the sharp s) expands to the two characters SS as in
CPython's full case mapping.  Other non-ASCII characters that Python would
case-map are left unchanged; every input evaluated concretely here contains
only ASCII characters and the sharp s, where this model is exact. -/
def upperChars (c : Char) : List Char :=
  if c = 'ß' then ['S', 'S'] else [c.toUpper]

/-- Models str.upper with the full (length-changing) case mapping of
upperChars. -/
def pyUpperFull (s : String) : String := ⟨(s.data.map upperChars).flatten⟩

/-- The Host.mac property under the full case mapping: the stored MAC
upper-cased for display by str.upper, including its Unicode expansions. -/
def Host.macU (h : Host) : String := pyUpperFull h.mkMac

/-- On an ASCII character the full case mapping is the one-to-one ASCII
map. -/
theorem upperChars_eq_of_ascii (c : Char) (h : c.toNat < 128) :
    upperChars c = [c.toUpper] := by
  have hne : ¬ c = 'ß' := by
    intro e
    subst e
    exact absurd h (by decide)
  rw [upperChars, if_neg hne]

/-- Flattening singleton images is mapping. -/
theorem flatten_map_singleton {α β : Type} (f : α → β) :
    ∀ l : List α, (l.map (fun a => [f a])).flatten = l.map f
  | [] => rfl
  | a :: t => by simp [flatten_map_singleton f t]

/-- On an all-ASCII string the full upper-casing agrees with the
character-wise ASCII upper-casing. -/
theorem pyUpperFull_eq_of_ascii (s : String) (h : ∀ c ∈ s.data, c.toNat < 128) :
    pyUpperFull s = pyUpper s := by
  unfold pyUpperFull pyUpper
  congr 1
  have hmap : s.data.map upperChars = s.data.map (fun c => [c.toUpper]) :=
    List.map_congr_left (fun c hc => upperChars_eq_of_ascii c (h c hc))
  rw [hmap, flatten_map_singleton]

/-- Characters of the re-grouped list come from the input or are colons. -/
theorem mem_joinPairsColon (c : Char) : ∀ l, c ∈ joinPairsColon l → c ∈ l ∨ c = ':'
  | [] => fun h => Or.inl h
  | [_] => fun h => Or.inl h
  | [_, _] => fun h => Or.inl h
  | a :: b :: d :: rest => fun h => by
    have hsplit : c = a ∨ c = b ∨ c = ':' ∨ c ∈ joinPairsColon (d :: rest) := by
      have h2 : c ∈ a :: b :: ':' :: joinPairsColon (d :: rest) := h
      simpa using h2
    rcases hsplit with rfl | rfl | rfl | hm
    · exact Or.inl (by simp)
    · exact Or.inl (by simp)
    · exact Or.inr rfl
    · rcases mem_joinPairsColon c (d :: rest) hm with hm2 | hc
      · exact Or.inl (List.mem_cons_of_mem a (List.mem_cons_of_mem b hm2))
      · exact Or.inr hc

/-- Separator stripping only removes characters. -/
theorem mem_of_mem_stripSeps (c : Char) (l : List Char) (h : c ∈ stripSeps l) :
    c ∈ l := by
  rw [stripSeps_eq_filter] at h
  exact (List.mem_filter.mp h).1

/-- ASCII characters stay ASCII under upper-casing. -/
theorem toUpper_toNat_lt (c : Char) (h : c.toNat < 128) : c.toUpper.toNat < 128 := by
  unfold Char.toUpper
  by_cases hg : c.toNat ≥ 97 ∧ c.toNat ≤ 122
  · rw [if_pos hg]
    have := toNat_ofNat_valid (c.toNat - 32) (by left; omega)
    omega
  · rwa [if_neg hg]

/-- The stored MAC of a Host built from an all-ASCII raw MAC is all-ASCII:
stripping removes characters and re-grouping only adds colons. -/
theorem mkMac_ascii (name mac ip : String) (port : Int)
    (h : ∀ c ∈ mac.data, c.toNat < 128) :
    ∀ c ∈ (Host.make name mac ip port).mkMac.data, c.toNat < 128 := by
  intro c hc
  simp only [Host.make] at hc
  by_cases h12 : (stripSeps mac.data).length = 12
  · rw [if_pos h12] at hc
    rcases mem_joinPairsColon c _ hc with hmem | rfl
    · exact h c (mem_of_mem_stripSeps c _ hmem)
    · decide
  · rw [if_neg h12] at hc
    exact h c (mem_of_mem_stripSeps c _ hc)

/-- The displayed MAC of a Host built from an all-ASCII raw MAC is
all-ASCII. -/
theorem mac_ascii (name mac ip : String) (port : Int)
    (h : ∀ c ∈ mac.data, c.toNat < 128) :
    ∀ c ∈ (Host.make name mac ip port).mac.data, c.toNat < 128 := by
  intro c hc
  simp only [Host.mac, pyUpper, List.mem_map] at hc
  obtain ⟨d, hd, rfl⟩ := hc
  exact toUpper_toNat_lt d (mkMac_ascii name mac ip port h d hd)

/-- C10 counterexample. The claim asserts idempotence for every raw MAC input
string, but str.upper is not character-wise: under the full case mapping the
input of twelve U+00DF characters is re-grouped and displayed as
SSSS:SSSS:SSSS:SSSS:SSSS:SSSS, and constructing a second Host from that
displayed MAC strips the colons to a 24-character string that stays
un-grouped — the second displayed MAC differs from the first. -/
theorem mac_normalization_idempotent_counterexample :
    (Host.make "" "ßßßßßßßßßßßß" "255.255.255.255" 9).macU =
      "SSSS:SSSS:SSSS:SSSS:SSSS:SSSS" ∧
    (Host.make "" (Host.make "" "ßßßßßßßßßßßß" "255.255.255.255" 9).macU
        "255.255.255.255" 9).macU = "SSSSSSSSSSSSSSSSSSSSSSSS" ∧
    (Host.make "" (Host.make "" "ßßßßßßßßßßßß" "255.255.255.255" 9).macU
        "255.255.255.255" 9).macU ≠
      (Host.make "" "ßßßßßßßßßßßß" "255.255.255.255" 9).macU := by
  refine ⟨by decide, by decide, by decide⟩

/-- C10 amended: MAC normalization is idempotent for every raw MAC input
string of ASCII characters — where str.upper maps characters one-to-one —
constructing a second Host from the first Host's displayed MAC yields the
same displayed MAC; non-ASCII inputs whose upper-casing expands are
excluded. -/
theorem mac_normalization_idempotent_ascii (s : String)
    (h : ∀ c ∈ s.data, c.toNat < 128) :
    (Host.make "" (Host.make "" s "255.255.255.255" 9).macU "255.255.255.255" 9).macU =
      (Host.make "" s "255.255.255.255" 9).macU := by
  have h1 : ∀ c ∈ (Host.make "" s "255.255.255.255" 9).mkMac.data, c.toNat < 128 :=
    mkMac_ascii "" s "255.255.255.255" 9 h
  have e1 : (Host.make "" s "255.255.255.255" 9).macU =
      (Host.make "" s "255.255.255.255" 9).mac :=
    pyUpperFull_eq_of_ascii _ h1
  have h2 : ∀ c ∈ ((Host.make "" s "255.255.255.255" 9).mac).data, c.toNat < 128 :=
    mac_ascii "" s "255.255.255.255" 9 h
  have h3 : ∀ c ∈ (Host.make "" (Host.make "" s "255.255.255.255" 9).mac
      "255.255.255.255" 9).mkMac.data, c.toNat < 128 :=
    mkMac_ascii "" _ "255.255.255.255" 9 h2
  rw [e1]
  have e2 : (Host.make "" (Host.make "" s "255.255.255.255" 9).mac
      "255.255.255.255" 9).macU =
      (Host.make "" (Host.make "" s "255.255.255.255" 9).mac
        "255.255.255.255" 9).mac :=
    pyUpperFull_eq_of_ascii _ h3
  rw [e2]
  exact mac_normalization_idempotent s

/-- C10 witness: the amended statement at the concrete all-ASCII raw MAC
aa:bb:cc:00:11:22, whose displayed MAC re-normalizes to itself. -/
theorem mac_normalization_idempotent_ascii_witness :
    (∀ c ∈ "aa:bb:cc:00:11:22".data, c.toNat < 128) ∧
    (Host.make "" (Host.make "" "aa:bb:cc:00:11:22" "255.255.255.255" 9).macU
        "255.255.255.255" 9).macU =
      (Host.make "" "aa:bb:cc:00:11:22" "255.255.255.255" 9).macU :=
  ⟨by decide, mac_normalization_idempotent_ascii "aa:bb:cc:00:11:22" (by decide)⟩

/-- Models class Hosts of src/wake/wake.py at the value level: the collection
is its ordered list self._hosts, appended to by add in insertion order. -/
def Hosts.add (hosts : List Host) (h : Host) : List Host := hosts ++ [h]

/-- Models Hosts.get: the first host, in insertion order, whose name matches
the lookup name case-insensitively (both sides lower-cased), and None when no
stored host matches.  The generator expression with next(..., None) never
raises for a missing name; the total Option result reflects that. -/
def Hosts.get (hosts : List Host) (name : String) : Option Host :=
  hosts.find? (fun h => pyLower h.name == pyLower name)

/-- Models Hosts.count. -/
def Hosts.count (hosts : List Host) : Nat := hosts.length

/-- Models the table property's content: one row of the four display fields
per host, in insertion order (the tabulate layout itself is cosmetic). -/
def Hosts.tableRows (hosts : List Host) : List (String × String × String × Int) :=
  hosts.map (fun h => (h.name, h.mac, h.ip, h.port))

/-- C6. Hosts.get returns the explicit not-found value exactly when no stored
host's name matches the lookup name case-insensitively, and any returned host
is a case-insensitive match that occurs in the list with no earlier match —
duplicates are allowed and the earliest-inserted match wins. -/
theorem hosts_get_first_match (hosts : List Host) (name : String) :
    (Hosts.get hosts name = none ↔
      ∀ h ∈ hosts, ¬ pyLower h.name = pyLower name) ∧
    (∀ h, Hosts.get hosts name = some h →
      pyLower h.name = pyLower name ∧
      ∃ pre post, hosts = pre ++ h :: post ∧
        ∀ h' ∈ pre, ¬ pyLower h'.name = pyLower name) := by
  constructor
  · simp [Hosts.get, List.find?_eq_none]
  · induction hosts with
    | nil => intro h hsome; simp [Hosts.get] at hsome
    | cons a t ih =>
      intro h hsome
      rw [Hosts.get, List.find?_cons] at hsome
      cases hp : (pyLower a.name == pyLower name) with
      | true =>
        rw [hp] at hsome
        injection hsome with hsome
        subst hsome
        exact ⟨by simpa using hp, [], t, rfl, by simp⟩
      | false =>
        rw [hp] at hsome
        obtain ⟨hm, pre, post, hsplit, hpre⟩ := ih h hsome
        refine ⟨hm, a :: pre, post, by rw [hsplit]; rfl, ?_⟩
        intro h' hh'
        rcases List.mem_cons.mp hh' with rfl | hh'
        · simpa using hp
        · exact hpre h' hh'

/-- C6 witness: with two stored hosts both named foo up to case, lookup by FOO
finds the earliest one (port 1, not port 2), and lookup of an absent name
returns none. -/
theorem hosts_get_first_match_witness :
    (pyLower (Host.make "foo" "aa:bb:cc:00:11:22" "255.255.255.255" 1).name =
        pyLower "FOO" ∧
      ∃ pre post,
        [Host.make "foo" "aa:bb:cc:00:11:22" "255.255.255.255" 1,
          Host.make "FOO" "aa:bb:cc:00:11:22" "255.255.255.255" 2] =
          pre ++ Host.make "foo" "aa:bb:cc:00:11:22" "255.255.255.255" 1 :: post ∧
        ∀ h' ∈ pre, ¬ pyLower h'.name = pyLower "FOO") ∧
    Hosts.get [Host.make "foo" "aa:bb:cc:00:11:22" "255.255.255.255" 1] "bar" = none := by
  constructor
  · exact (hosts_get_first_match
      [Host.make "foo" "aa:bb:cc:00:11:22" "255.255.255.255" 1,
        Host.make "FOO" "aa:bb:cc:00:11:22" "255.255.255.255" 2] "FOO").2
      (Host.make "foo" "aa:bb:cc:00:11:22" "255.255.255.255" 1) (by decide)
  · exact (hosts_get_first_match
      [Host.make "foo" "aa:bb:cc:00:11:22" "255.255.255.255" 1] "bar").1.mpr (by decide)

/-- Models the Python object store for the aliasing claim: every list object
lives at a reference, and a reference dereferences to the current list. -/
structure Store where
  lists : Nat → List Host

/-- Write one list object in the store. -/
def Store.update (m : Store) (r : Nat) (l : List Host) : Store :=
  ⟨fun r' => if r' = r then l else m.lists r'⟩

/-- Models a Hosts object: it holds the reference of its private list
self._hosts. -/
structure HostsObj where
  ref : Nat

/-- Models Hosts.get_all of src/wake/wake.py: it returns self._hosts itself —
the reference held by the object, not a freshly allocated copy. -/
def HostsObj.get_all (h : HostsObj) : Nat := h.ref

/-- A caller-side mutation of a list object: append one element through a
reference. -/
def Store.appendAt (m : Store) (r : Nat) (x : Host) : Store :=
  m.update r (m.lists r ++ [x])

/-- A caller-side mutation of a list object: delete the last element through a
reference, as del lst[-1] does. -/
def Store.deleteLastAt (m : Store) (r : Nat) : Store :=
  m.update r (m.lists r).dropLast

/-- Registry observations through the object (count, get, tableRows, get_all
content), all reading the current list behind the object's reference. -/
def HostsObj.countM (m : Store) (h : HostsObj) : Nat := Hosts.count (m.lists h.ref)

/-- Lookup through the object. -/
def HostsObj.getM (m : Store) (h : HostsObj) (name : String) : Option Host :=
  Hosts.get (m.lists h.ref) name

/-- Table content through the object. -/
def HostsObj.tableRowsM (m : Store) (h : HostsObj) : List (String × String × String × Int) :=
  Hosts.tableRows (m.lists h.ref)

/-- Content of a later get_all call through the object. -/
def HostsObj.getAllM (m : Store) (h : HostsObj) : List Host := m.lists h.get_all

/-- C7. get_all returns the live underlying sequence: a caller that mutates
the list reached through the returned reference — appending a host or
deleting the last element — changes what the registry reports afterwards
through count, get, tableRows, and subsequent get_all calls. -/
theorem get_all_returns_live_list (m : Store) (h : HostsObj) (x : Host) :
    (HostsObj.countM (m.appendAt h.get_all x) h = HostsObj.countM m h + 1) ∧
    (HostsObj.getAllM (m.appendAt h.get_all x) h = HostsObj.getAllM m h ++ [x]) ∧
    (HostsObj.tableRowsM (m.appendAt h.get_all x) h =
      HostsObj.tableRowsM m h ++ [(x.name, x.mac, x.ip, x.port)]) ∧
    (HostsObj.getM m h x.name = none →
      HostsObj.getM (m.appendAt h.get_all x) h x.name = some x) ∧
    (0 < HostsObj.countM m h →
      HostsObj.countM (m.deleteLastAt h.get_all) h = HostsObj.countM m h - 1) := by
  refine ⟨?_, ?_, ?_, ?_, ?_⟩
  · simp [HostsObj.countM, Store.appendAt, Store.update, HostsObj.get_all, Hosts.count]
  · simp [HostsObj.getAllM, Store.appendAt, Store.update, HostsObj.get_all]
  · simp [HostsObj.tableRowsM, Store.appendAt, Store.update, HostsObj.get_all,
      Hosts.tableRows]
  · intro hnone
    simp only [HostsObj.getM, Hosts.get] at hnone
    simp [HostsObj.getM, Store.appendAt, Store.update, HostsObj.get_all, Hosts.get,
      List.find?_append, hnone]
  · intro hpos
    simp [HostsObj.countM, Store.deleteLastAt, Store.update, HostsObj.get_all,
      Hosts.count, List.length_dropLast]

/-- Demonstration host used by witnesses. -/
def demoHostFoo : Host := Host.make "foo" "aa:bb:cc:00:11:22" "255.255.255.255" 9

/-- Demonstration host used by witnesses. -/
def demoHostBar : Host := Host.make "bar" "dd:ee:ff:33:44:55" "255.255.255.255" 9

/-- Demonstration store holding one registry list at reference 0. -/
def demoStore : Store := ⟨fun r => if r = 0 then [demoHostFoo] else []⟩

/-- Demonstration registry object pointing at reference 0. -/
def demoObj : HostsObj := ⟨0⟩

/-- C7 witness: on a concrete one-host registry, appending bar through the
list returned by get_all makes the registry's own lookup find bar, and
deleting the last element through it shrinks the registry's count. -/
theorem get_all_returns_live_list_witness :
    HostsObj.getM demoStore demoObj "bar" = none ∧
    HostsObj.getM (demoStore.appendAt demoObj.get_all demoHostBar) demoObj "bar" =
      some demoHostBar ∧
    0 < HostsObj.countM demoStore demoObj ∧
    HostsObj.countM (demoStore.deleteLastAt demoObj.get_all) demoObj =
      HostsObj.countM demoStore demoObj - 1 := by
  refine ⟨by decide, ?_, by decide, ?_⟩
  · exact (get_all_returns_live_list demoStore demoObj demoHostBar).2.2.2.1 (by decide)
  · exact (get_all_returns_live_list demoStore demoObj demoHostBar).2.2.2.2 (by decide)

/-- Equality on Except values is decidable when it is on both components. -/
instance {ε α : Type} [DecidableEq ε] [DecidableEq α] : DecidableEq (Except ε α)
  | .error a, .error b =>
    if h : a = b then .isTrue (congrArg Except.error h)
    else .isFalse (fun he => h (Except.error.inj he))
  | .error _, .ok _ => .isFalse (fun he => Except.noConfusion he)
  | .ok _, .error _ => .isFalse (fun he => Except.noConfusion he)
  | .ok a, .ok b =>
    if h : a = b then .isTrue (congrArg Except.ok h)
    else .isFalse (fun he => h (Except.ok.inj he))

/-- Models the dispatch loop of the host command in src/wake/core.py: the
hosts to wake are visited in list order, each visit performs exactly one UDP
send (Host.wake builds the packet and calls sendto once, with no retry), and
an exception from the send propagates out of the loop immediately.  The send
is abstracted as a function returning ok or an error; the result records the
hosts whose send was attempted, in order, and the propagated error if any. -/
def wakeAll (ε : Type) (send : Host → Except ε Unit) : List Host → List Host × Option ε
  | [] => ([], none)
  | h :: t =>
    match send h with
    | Except.error e => ([h], some e)
    | Except.ok _ =>
      let r := wakeAll ε send t
      (h :: r.1, r.2)

/-- C8. If the send fails for some host in the target list, the dispatch
attempts one send for each earlier host, one send for the failing host, and
none for any later host — no retry, no continuation — and the error is
surfaced to the caller; when every send succeeds, every host is attempted
exactly once in order and no error is surfaced. -/
theorem wake_dispatch_aborts_on_failure (ε : Type) (send : Host → Except ε Unit) :
    (∀ (pre post : List Host) (f : Host) (e : ε),
      (∀ h ∈ pre, send h = Except.ok ()) → send f = Except.error e →
      wakeAll ε send (pre ++ f :: post) = (pre ++ [f], some e)) ∧
    (∀ hosts : List Host, (∀ h ∈ hosts, send h = Except.ok ()) →
      wakeAll ε send hosts = (hosts, none)) := by
  have hall : ∀ hosts : List Host, (∀ h ∈ hosts, send h = Except.ok ()) →
      wakeAll ε send hosts = (hosts, none) := by
    intro hosts
    induction hosts with
    | nil => intro _; rfl
    | cons a t ih =>
      intro hok
      have ha : send a = Except.ok () := hok a (by simp)
      have ht := ih (fun h hm => hok h (List.mem_cons_of_mem a hm))
      simp [wakeAll, ha, ht]
  refine ⟨?_, hall⟩
  intro pre post f e hpre hf
  induction pre with
  | nil => simp [wakeAll, hf]
  | cons a t ih =>
    have ha : send a = Except.ok () := hpre a (by simp)
    have ht := ih (fun h hm => hpre h (List.mem_cons_of_mem a hm))
    simp [wakeAll, ha, ht]

/-- Concrete send used by the C8 witness: it fails exactly on the host named
bar with error code 7. -/
def demoSend (h : Host) : Except Nat Unit :=
  if h.name = "bar" then Except.error 7 else Except.ok ()

/-- C8 witness: with targets foo, bar, foo the send fails on bar: foo is
attempted once, bar once, the trailing foo never, and the error is surfaced;
on targets without bar every host is attempted once with no error. -/
theorem wake_dispatch_aborts_on_failure_witness :
    wakeAll Nat demoSend [demoHostFoo, demoHostBar, demoHostFoo] =
      ([demoHostFoo, demoHostBar], some 7) ∧
    wakeAll Nat demoSend [demoHostFoo, demoHostFoo] =
      ([demoHostFoo, demoHostFoo], none) := by
  constructor
  · exact (wake_dispatch_aborts_on_failure Nat demoSend).1 [demoHostFoo] [demoHostFoo]
      demoHostBar 7 (by decide) (by decide)
  · exact (wake_dispatch_aborts_on_failure Nat demoSend).2 [demoHostFoo, demoHostFoo]
      (by decide)

/-- Modelled from the spec: one raw configuration record with the optional
name, mac, ip and port keys (the current loader build_hosts is not under src;
only src/tests/test_cli.py exercises it, and src/wake/cli.py holds an older
revision).  A missing key is None. -/
structure RawRecord where
  rawName : Option String
  rawMac : Option String
  rawIp : Option String
  rawPort : Option Int
deriving DecidableEq, Repr

/-- Modelled from the spec: a record's Host is built with the documented
defaults — empty name, empty mac, broadcast ip, port 9 — for missing keys,
then normalized by the Host constructor. -/
def recordHost (r : RawRecord) : Host :=
  Host.make (r.rawName.getD "") (r.rawMac.getD "") (r.rawIp.getD "255.255.255.255")
    (r.rawPort.getD 9)

/-- Modelled from the spec: the identifier a warning uses for a record — its
name, or the positional placeholder of a hash sign and the 1-based position
when the record supplies no name (the loader's test also applies the
placeholder to an empty name). -/
def recordIdent (i : Nat) (r : RawRecord) : String :=
  if r.rawName.getD "" = "" then "#" ++ toString (i + 1) else r.rawName.getD ""

/-- Modelled from the spec: the loader walks the records in order carrying the
0-based position i; a record whose Host fails validate is dropped and a
warning with its identifier and all its validation messages is emitted; a
valid record's Host is kept; one invalid record never aborts the rest of the
load.  The result is the warning list and the loaded hosts, both in record
order. -/
def buildHostsAux (i : Nat) : List RawRecord → List (String × List String) × List Host
  | [] => ([], [])
  | r :: rest =>
    let h := recordHost r
    let res := buildHostsAux (i + 1) rest
    if h.validateErrors = [] then (res.1, h :: res.2)
    else ((recordIdent i r, h.validateErrors) :: res.1, res.2)

/-- Modelled from the spec: build_hosts starts the walk at position 0. -/
def build_hosts (records : List RawRecord) : List (String × List String) × List Host :=
  buildHostsAux 0 records

/-- The loaded hosts do not depend on the starting position; only warning
identifiers do. -/
theorem buildHostsAux_snd_index_free (l : List RawRecord) :
    ∀ i j : Nat, (buildHostsAux i l).2 = (buildHostsAux j l).2 := by
  induction l with
  | nil => intro i j; rfl
  | cons r rest ih =>
    intro i j
    simp only [buildHostsAux]
    by_cases hv : (recordHost r).validateErrors = [] <;>
      simp [hv, ih (i + 1) (j + 1)]

/-- The loader processes a concatenation independently, shifting positions by
the length of the first part. -/
theorem buildHostsAux_append (i : Nat) (xs ys : List RawRecord) :
    buildHostsAux i (xs ++ ys) =
      ((buildHostsAux i xs).1 ++ (buildHostsAux (i + xs.length) ys).1,
        (buildHostsAux i xs).2 ++ (buildHostsAux (i + xs.length) ys).2) := by
  induction xs generalizing i with
  | nil => simp [buildHostsAux]
  | cons r rest ih =>
    have hidx : i + 1 + rest.length = i + (rest.length + 1) := by omega
    simp only [List.cons_append, buildHostsAux, List.append_eq]
    rw [ih (i + 1), hidx]
    by_cases hv : (recordHost r).validateErrors = [] <;>
      simp [hv, List.length_cons]

/-- C9. During configuration load, a record whose Host fails validation is
dropped with a warning carrying its identifier — its name, or the hash-sign
1-based positional placeholder when the name key is missing — together with
every validation failure message of that record, and all remaining records
still load: the loaded hosts are exactly those of the records before and
after it. -/
theorem build_hosts_drops_invalid_record (pre post : List RawRecord) (r : RawRecord)
    (hbad : (recordHost r).validateErrors ≠ []) :
    (recordIdent pre.length r, (recordHost r).validateErrors) ∈
      (build_hosts (pre ++ r :: post)).1 ∧
    (build_hosts (pre ++ r :: post)).2 = (build_hosts pre).2 ++ (build_hosts post).2 ∧
    (r.rawName = none → recordIdent pre.length r = "#" ++ toString (pre.length + 1)) ∧
    (∀ n, r.rawName = some n → ¬ n = "" → recordIdent pre.length r = n) := by
  refine ⟨?_, ?_, ?_, ?_⟩
  · rw [build_hosts, buildHostsAux_append 0 pre (r :: post)]
    simp only [buildHostsAux, hbad, Nat.zero_add, if_neg hbad]
    exact List.mem_append_right _ (by simp)
  · rw [build_hosts, buildHostsAux_append 0 pre (r :: post)]
    simp only [buildHostsAux, Nat.zero_add, if_neg hbad]
    rw [build_hosts, build_hosts, buildHostsAux_snd_index_free post (pre.length + 1) 0]
  · intro hn
    simp [recordIdent, hn]
  · intro n hn hne
    simp [recordIdent, hn, hne]

/-- Invalid demonstration record for the C9 witness: no name, malformed
MAC. -/
def demoBadRecord : RawRecord := ⟨none, some "zz", none, none⟩

/-- Valid demonstration record for the C9 witness. -/
def demoGoodRecord : RawRecord := ⟨some "foo", some "aa:bb:cc:00:11:22", none, none⟩

/-- C9 witness: loading the invalid nameless record followed by a valid one
emits the warning identified by the placeholder of position 1 with the
record's two failure messages, and still loads the valid record's host. -/
theorem build_hosts_drops_invalid_record_witness :
    ("#1", ["Invalid MAC Address", "Invalid name"]) ∈
      (build_hosts [demoBadRecord, demoGoodRecord]).1 ∧
    (build_hosts [demoBadRecord, demoGoodRecord]).2 =
      (build_hosts []).2 ++ (build_hosts [demoGoodRecord]).2 := by
  have t := build_hosts_drops_invalid_record [] [demoGoodRecord] demoBadRecord (by decide)
  have h1 : recordIdent 0 demoBadRecord = "#1" := by decide
  have h2 : (recordHost demoBadRecord).validateErrors =
      ["Invalid MAC Address", "Invalid name"] := by decide
  exact ⟨by simpa [h1, h2] using t.1, by simpa using t.2.1⟩

end Wake
